import Mathlib

/-!
Verification development for the minions-suite review orchestrator.

Shallow embedding of the Python sources:
  * `src/minions/tools.py`   — tool dispatch (`ToolExecutor`)
  * `src/minions/agent.py`   — the agent session loop (`_agent_loop`, `run_review`)
  * `src/minions/review_engine.py` — the scheduler (`ReviewEngine._poll`, `_process_review`)
  * `src/minions/db.py`      — queue queries (`get_queued_reviews`)
  * `src/minions/models.py`, `src/minions/config.py` — data model and configuration

Conventions of the embedding:
  * Python `str` is Lean `String`; `len`/slicing act on the code-point list
    (`pyLen`, `pyTake`, `pySlice`).
  * JSON values appearing in tool arguments are the inductive `JsonVal`
    (strings, integers, booleans, null; provider-returned mappings are
    modelled as opaque `JsonVal`s).
  * A Python exception is `Except.error msg` where `msg` models `str(e)`.
  * External effects (provider HTTP calls, the filesystem, the `rg`
    subprocess, the wall clock, the completion API) are parameters of the
    functions, supplied as explicit environment records.
-/

namespace Minions

/-- JSON-ish Python values flowing through tool-call argument maps.
Mappings returned by providers are not inspected by the code under
verification, so no object constructor is needed. -/
inductive JsonVal where
  | str (s : String)
  | int (n : Int)
  | bool (b : Bool)
  | null
deriving DecidableEq, Repr

/-- Python truthiness for the values we model (`if not x`). -/
def JsonVal.falsy : JsonVal → Bool
  | .str s => s == ""
  | .int n => n == 0
  | .bool b => !b
  | .null => true

/-- Python `str()` coercion as used by f-string interpolation. -/
def JsonVal.pyStr : JsonVal → String
  | .str s => s
  | .int n => toString n
  | .bool b => cond b "True" "False"
  | .null => "None"

/-- A parsed tool-call argument mapping (a Python `dict` from `json.loads`). -/
abbrev ArgMap := List (String × JsonVal)

/-- Python `dict.get(k)`. -/
def ArgMap.get (m : ArgMap) (k : String) : Option JsonVal :=
  (List.find? (fun p => p.1 == k) m).map (fun p => p.2)

/-- Python `dict.get(k, d)`. -/
def ArgMap.getD (m : ArgMap) (k : String) (d : JsonVal) : JsonVal :=
  (m.get k).getD d

/-- Requiring a `str` where Python would raise on other types
(e.g. `severity.upper()`, passing a non-string to `subprocess`/`glob`).
The message stands in for the dynamic-type error's `str(e)`. -/
def JsonVal.expectStr : JsonVal → Except String String
  | .str s => .ok s
  | _ => .error "TypeError: expected str"

/-- Requiring an `int` where Python arithmetic/slicing would raise otherwise. -/
def JsonVal.expectInt : JsonVal → Except String Int
  | .int n => .ok n
  | _ => .error "TypeError: expected int"

/-- Python `len(s)` on a `str` (counts code points). -/
def pyLen (s : String) : Nat := s.data.length

/-- Python `s[:n]` for `n ≥ 0` (code-point slicing). -/
def pyTake (s : String) (n : Nat) : String := String.mk (s.data.take n)

/-- Python list slicing `l[a:b]` with full negative-index normalization. -/
def pySlice {α : Type} (l : List α) (a b : Int) : List α :=
  let n : Int := l.length
  let na : Int := if a < 0 then max 0 (n + a) else min a n
  let nb : Int := if b < 0 then max 0 (n + b) else min b n
  (l.take nb.toNat).drop na.toNat

/-- Python `str.splitlines()` restricted to LF separators (the only
separator produced by the code paths we model). -/
def pySplitlines (s : String) : List String :=
  if s = "" then []
  else if s.endsWith "\n" then (s.splitOn "\n").dropLast
  else s.splitOn "\n"

/-- `json.dumps` escaping for one character (quotes and backslashes; the
control-character escapes are not exercised by any modelled string). -/
def jsonEscapeChar (c : Char) : String :=
  if c = '\\' then "\\\\"
  else if c = '"' then "\\\""
  else String.mk [c]

/-- `json.dumps` applied to a Python `str`. -/
def jsonQuote (s : String) : String :=
  "\"" ++ String.join (s.data.map jsonEscapeChar) ++ "\""

/-- `json.dumps({"error": msg})` — the structured error result every
capability failure is converted to (tools.py). -/
def jsonError (msg : String) : String :=
  "\x7b\"error\": " ++ jsonQuote msg ++ "\x7d"

/-- `json.dumps` of one modelled JSON value. -/
def jsonValDump : JsonVal → String
  | .str s => jsonQuote s
  | .int n => toString n
  | .bool b => cond b "true" "false"
  | .null => "null"

/-- `json.dumps` of a list of strings (e.g. `get_changed_files`). -/
def jsonDumpsStrList (l : List String) : String :=
  "[" ++ String.intercalate ", " (l.map jsonQuote) ++ "]"

/-- `json.dumps` of a list of modelled JSON values (e.g. `get_mr_comments`). -/
def jsonDumpsValList (l : List JsonVal) : String :=
  "[" ++ String.intercalate ", " (l.map jsonValDump) ++ "]"

/-- A filesystem node as seen by `read_file` (`Path.exists` / `Path.is_file`). -/
inductive FsNode where
  | file (content : String)
  | dir
deriving DecidableEq, Repr

/-- Outcome of the `rg` subprocess in `_search_code`. -/
inductive RgOutcome where
  | completed (returncode : Int) (stdout stderr : String)
  | notFound
  | timedOut
deriving DecidableEq, Repr

/-- Behaviour of the tool executor's external collaborators for one session:
the git provider's five calls, the local filesystem, the `rg` subprocess and
the `glob` listing. `Except.error e` models the call raising with `str(e)`. -/
structure ExecEnv where
  diffResult : Except String String
  changedFiles : Except String (List String)
  commentsResult : Except String (List JsonVal)
  postOutcome : JsonVal → JsonVal → String → Except String Unit
  submitOutcome : JsonVal → JsonVal → Except String JsonVal
  fs : String → Option FsNode
  rg : String → Option String → RgOutcome
  globMatches : String → List (String × Bool)

/-- Mutable executor state plus event traces of the provider-visible effects
(the traces record each provider call as it is issued, so that theorems can
speak about what was sent to the provider). -/
structure ExecState where
  comments_posted : Nat
  execTrace : List (String × ArgMap)
  submitTrace : List (JsonVal × JsonVal)
  postTrace : List (JsonVal × JsonVal × String)
deriving DecidableEq, Repr

/-- Fresh executor state (`ToolExecutor.__init__`). -/
def ExecState.init : ExecState := ⟨0, [], [], []⟩

/-- The configuration the `ToolExecutor` is constructed with. -/
structure ToolExecutorCfg where
  project_id : String
  mr_id : String
  repo_path : String
deriving DecidableEq, Repr

/-- `ToolExecutor._get_diff` (tools.py lines 181-186). -/
def getDiffTool (env : ExecEnv) : Except String String :=
  match env.diffResult with
  | .error e => .error e
  | .ok diff =>
    if pyLen diff > 100000 then
      .ok (pyTake diff 100000 ++ "\n\n... [diff truncated at 100k chars — use read_file for full context]")
    else
      .ok diff

/-- `ToolExecutor._read_file` (tools.py lines 192-219). -/
def readFileTool (ex : ToolExecutorCfg) (env : ExecEnv) (args : ArgMap) : Except String String :=
  let path := args.getD "path" (.str "")
  if path.falsy then .ok (jsonError "path is required")
  else if ex.repo_path = "" then
    .ok (jsonError "No local repo path configured — cannot read files")
  else
    match path.expectStr with
    | .error e => .error e
    | .ok p =>
      match env.fs p with
      | none => .ok (jsonError ("File not found: " ++ p))
      | some .dir => .ok (jsonError ("Not a file: " ++ p))
      | some (.file content) =>
        let lines0 := pySplitlines content
        let linesE : Except String (List String) :=
          match args.get "start_line" with
          | none => .ok lines0
          | some sv =>
            match sv.expectInt with
            | .error e => .error e
            | .ok s =>
              let start : Int := max 1 s - 1
              match args.get "end_line" with
              | none => .ok (pySlice lines0 start lines0.length)
              | some ev =>
                match ev.expectInt with
                | .error e => .error e
                | .ok en => .ok (pySlice lines0 start en)
        match linesE with
        | .error e => .error e
        | .ok lines =>
          let lines :=
            if lines.length > 500 then
              lines.take 500 ++ ["... [truncated at 500 lines — use start_line/end_line for specific ranges]"]
            else lines
          .ok (String.intercalate "\n" lines)

/-- `ToolExecutor._search_code` (tools.py lines 221-245). -/
def searchCodeTool (ex : ToolExecutorCfg) (env : ExecEnv) (args : ArgMap) : Except String String :=
  let pattern := args.getD "pattern" (.str "")
  if pattern.falsy then .ok (jsonError "pattern is required")
  else if ex.repo_path = "" then
    .ok (jsonError "No local repo path configured — cannot search")
  else
    match pattern.expectStr with
    | .error e => .error e
    | .ok pat =>
      let globF : Option String :=
        match args.get "glob" with
        | some (.str g) => if g = "" then none else some g
        | _ => none
      match env.rg pat globF with
      | .completed rc out errs =>
        if rc = 0 then .ok (pyTake out 20000)
        else if rc = 1 then .ok "No matches found."
        else .ok (jsonError ("rg failed: " ++ pyTake errs 200))
      | .notFound => .ok (jsonError "rg (ripgrep) not installed")
      | .timedOut => .ok (jsonError "Search timed out after 15s")

/-- `ToolExecutor._list_files` (tools.py lines 247-262). -/
def listFilesTool (ex : ToolExecutorCfg) (env : ExecEnv) (args : ArgMap) : Except String String :=
  let pattern := args.getD "pattern" (.str "")
  if pattern.falsy then .ok (jsonError "pattern is required")
  else if ex.repo_path = "" then
    .ok (jsonError "No local repo path configured")
  else
    match pattern.expectStr with
    | .error e => .error e
    | .ok pat =>
      let globbed := env.globMatches pat
      let relative := (globbed.filter (fun m => m.2)).map (fun m => m.1)
      let relative :=
        if relative.length > 200 then
          relative.take 200 ++ ["... and more (showing first 200 of " ++ toString globbed.length ++ ")"]
        else relative
      .ok (jsonDumpsStrList relative)

/-- `json.dumps` of `_post_inline_comment`'s success payload. -/
def postOkPayload (file : JsonVal) (line : JsonVal) (total : Nat) : String :=
  "\x7b\"posted\": true, \"file\": " ++ jsonValDump file ++ ", \"line\": " ++ jsonValDump line
    ++ ", \"total_comments\": " ++ toString total ++ "\x7d"

/-- `ToolExecutor._post_inline_comment` (tools.py lines 268-281); also
returns the updated state (counter, trace). -/
def postInlineCommentTool (env : ExecEnv) (args : ArgMap) (st : ExecState) :
    Except String String × ExecState :=
  let file_path := args.getD "file_path" (.str "")
  let line := args.getD "line" (.int 0)
  let body := args.getD "body" (.str "")
  let severity := args.getD "severity" (.str "nit")
  if file_path.falsy || body.falsy then
    (.ok (jsonError "file_path and body are required"), st)
  else
    match severity.expectStr with
    | .error e => (.error e, st)
    | .ok sev =>
      let prefixed := "**[" ++ sev.toUpper ++ "]** " ++ body.pyStr
      let st := { st with postTrace := st.postTrace ++ [(file_path, line, prefixed)] }
      match env.postOutcome file_path line prefixed with
      | .error e => (.error e, st)
      | .ok _ =>
        let st := { st with comments_posted := st.comments_posted + 1 }
        (.ok (postOkPayload file_path line st.comments_posted), st)

/-- `ToolExecutor._submit_review` (tools.py lines 283-287); the missing
`verdict` key defaults to `"request_changes"`. -/
def submitReviewTool (env : ExecEnv) (args : ArgMap) (st : ExecState) :
    Except String String × ExecState :=
  let verdict := args.getD "verdict" (.str "request_changes")
  let body := args.getD "body" (.str "")
  let st := { st with submitTrace := st.submitTrace ++ [(verdict, body)] }
  match env.submitOutcome verdict body with
  | .error e => (.error e, st)
  | .ok r => (.ok (jsonValDump r), st)

/-- The body of `ToolExecutor.execute`'s `try` block: dispatch on the tool
name (tools.py lines 159-176). `Except.error` is a Python exception
escaping a handler. -/
def executeInner (ex : ToolExecutorCfg) (env : ExecEnv) (tool_name : String) (args : ArgMap)
    (st : ExecState) : Except String String × ExecState :=
  if tool_name = "get_mr_diff" then (getDiffTool env, st)
  else if tool_name = "get_changed_files" then
    (match env.changedFiles with
     | .error e => .error e
     | .ok files => .ok (jsonDumpsStrList files), st)
  else if tool_name = "read_file" then (readFileTool ex env args, st)
  else if tool_name = "search_code" then (searchCodeTool ex env args, st)
  else if tool_name = "list_files" then (listFilesTool ex env args, st)
  else if tool_name = "get_mr_comments" then
    (match env.commentsResult with
     | .error e => .error e
     | .ok l => .ok (jsonDumpsValList l), st)
  else if tool_name = "post_inline_comment" then postInlineCommentTool env args st
  else if tool_name = "submit_review" then submitReviewTool env args st
  else (.ok (jsonError ("Unknown tool: " ++ tool_name)), st)

/-- `ToolExecutor.execute` (tools.py lines 157-179): dispatch, catching any
exception and converting it to a structured error string. Also records the
invocation in the trace. Total: always returns a string. -/
def ToolExecutorCfg.execute (ex : ToolExecutorCfg) (env : ExecEnv) (tool_name : String)
    (args : ArgMap) (st : ExecState) : String × ExecState :=
  let st := { st with execTrace := st.execTrace ++ [(tool_name, args)] }
  match executeInner ex env tool_name args st with
  | (.ok s, st) => (s, st)
  | (.error e, st) => (jsonError e, st)

/-! ## The agent session loop (`src/minions/agent.py`) -/

instance {ε α : Type} [DecidableEq ε] [DecidableEq α] : DecidableEq (Except ε α) := fun x y =>
  match x, y with
  | .ok a, .ok b => decidable_of_iff (a = b) (by simp)
  | .error a, .error b => decidable_of_iff (a = b) (by simp)
  | .ok _, .error _ => isFalse (fun h => Except.noConfusion h)
  | .error _, .ok _ => isFalse (fun h => Except.noConfusion h)

/-- One tool call requested by the model. `argSrc` is the outcome of
`json.loads(tool_call.function.arguments)`: `some m` for a JSON object,
`none` when decoding raises `json.JSONDecodeError` (agent.py lines 195-198). -/
structure ToolCall where
  id : String
  name : String
  argSrc : Option ArgMap
deriving DecidableEq, Repr

/-- The assistant message of one completion choice. An empty `tool_calls`
list also models Python's `None` (both are falsy in `not message.tool_calls`). -/
structure LLMMessage where
  content : Option String
  tool_calls : List ToolCall
deriving DecidableEq, Repr

/-- `response.usage` token counts (`prompt_tokens or 0` handles `None`). -/
structure UsageRec where
  prompt_tokens : Option Nat
  completion_tokens : Option Nat
deriving DecidableEq, Repr

/-- One completion-API response. `cost` is the outcome of
`litellm.completion_cost` (its exceptions are swallowed, agent.py 171-175);
dollar amounts are modelled as exact rationals. -/
structure LLMResponse where
  usage : Option UsageRec
  cost : Except String Rat
  finish_reason : String
  message : LLMMessage
deriving DecidableEq, Repr

/-- The external world of one loop iteration: the wall-clock reading taken
at the top of the iteration (`time.time() - start_time`, in seconds) and the
outcome of the `litellm.acompletion` call of that iteration
(`Except.error` = the call raised; fatal, agent.py lines 153-163). -/
structure TurnEnv where
  elapsed : Nat
  llm : Except String LLMResponse
deriving DecidableEq, Repr

/-- A message in the conversation history. -/
inductive Msg where
  | system (content : String)
  | user (content : String)
  | assistant (m : LLMMessage)
  | toolResult (tool_call_id : String) (content : String)
deriving DecidableEq, Repr

/-- The mutable locals of `_agent_loop` (agent.py lines 132-139) together
with the executor state threaded through tool dispatch. -/
structure LoopState where
  total_input : Nat
  total_output : Nat
  total_cost : Rat
  num_turns : Nat
  verdict : Option JsonVal
  summary : JsonVal
  messages : List Msg
  execSt : ExecState
deriving DecidableEq, Repr

/-- `max_turns = 30` (agent.py line 138). -/
def agentMaxTurns : Nat := 30

/-- Configuration fields consumed by the modelled code
(`src/minions/config.py`, with the source defaults). -/
structure Config where
  model : String := "gpt-4o"
  agent_timeout : Nat := 600
  git_provider : String := "gitlab"
  engine_poll_interval : Nat := 10
  max_concurrent_reviews : Int := 3
deriving DecidableEq, Repr

/-- Dispatch of one tool call (the body of the `for tool_call in
message.tool_calls` loop, agent.py lines 193-215): parse arguments with
malformed-JSON degradation to `{}`, execute, capture a `submit_review`
verdict/summary, append the tool-result message. -/
def stepToolCall (env : ExecEnv) (ex : ToolExecutorCfg) (tc : ToolCall) (st : LoopState) :
    LoopState :=
  let fn_args : ArgMap := tc.argSrc.getD []
  let res := ex.execute env tc.name fn_args st.execSt
  let st := { st with execSt := res.2 }
  let st :=
    if tc.name = "submit_review" then
      { st with verdict := fn_args.get "verdict", summary := fn_args.getD "body" (.str "") }
    else st
  { st with messages := st.messages ++ [Msg.toolResult tc.id res.1] }

/-- All tool calls of one turn, dispatched in order. -/
def stepToolCalls (env : ExecEnv) (ex : ToolExecutorCfg) (l : List ToolCall) (st : LoopState) :
    LoopState :=
  l.foldl (fun s c => stepToolCall env ex c s) st

/-- The bookkeeping of one successful completion response before the
terminal check: usage accumulation, cost accumulation with swallowed
failures, and appending the assistant message (agent.py lines 165-185). -/
def noteResponse (resp : LLMResponse) (st : LoopState) : LoopState :=
  let st :=
    match resp.usage with
    | some u =>
      { st with total_input := st.total_input + u.prompt_tokens.getD 0,
                total_output := st.total_output + u.completion_tokens.getD 0 }
    | none => st
  let st :=
    match resp.cost with
    | .ok c => { st with total_cost := st.total_cost + c }
    | .error _ => st
  { st with messages := st.messages ++ [Msg.assistant resp.message] }

/-- The `while num_turns < max_turns` loop of `_agent_loop` (agent.py lines
144-215), with `fuel = max_turns - num_turns`. Iteration `i` (zero-based,
`i = num_turns` at the top of the iteration) reads `script i`. -/
def loopGo (cfg : Config) (env : ExecEnv) (ex : ToolExecutorCfg) (script : Nat → TurnEnv) :
    Nat → LoopState → Except String LoopState
  | 0, st => .ok st
  | fuel + 1, st =>
    let t := script st.num_turns
    if t.elapsed > cfg.agent_timeout then .ok st
    else
      let st := { st with num_turns := st.num_turns + 1 }
      match t.llm with
      | .error e => .error e
      | .ok resp =>
        let st := noteResponse resp st
        if resp.finish_reason = "stop" ∨ resp.message.tool_calls = [] then .ok st
        else
          loopGo cfg env ex script fuel (stepToolCalls env ex resp.message.tool_calls st)

/-- The locals of `_agent_loop` before the first iteration (agent.py lines
129-139) with a fresh executor state. -/
def agentInitState (system_prompt : String) : LoopState :=
  { total_input := 0, total_output := 0, total_cost := 0, num_turns := 0,
    verdict := none, summary := .str "",
    messages := [Msg.system system_prompt,
      Msg.user "Please review the merge request described in your context. Start by reading the diff."],
    execSt := ExecState.init }

/-- `_agent_loop` (agent.py lines 121-226): initial history, fresh
executor state, and the bounded loop. The returned `LoopState` carries the
fields of the result dict (tokens, cost, `num_turns`, `verdict`, `summary`). -/
def agentLoop (cfg : Config) (env : ExecEnv) (ex : ToolExecutorCfg) (system_prompt : String)
    (script : Nat → TurnEnv) : Except String LoopState :=
  loopGo cfg env ex script agentMaxTurns (agentInitState system_prompt)

/-! ## Data model (`src/minions/models.py`) and persistence (`src/minions/db.py`)

Identifier generation (`uuid`) and wall-clock timestamp strings are side
effects of the host; timestamps are modelled as `Nat` instants supplied by
the caller, ordered the same way as the ISO-8601 `TEXT` column. -/

/-- `ReviewStatus` (models.py). -/
inductive ReviewStatus where
  | queued
  | in_progress
  | commented
  | done
  | failed
deriving DecidableEq, Repr

/-- A `reviews` row / in-memory `Review` model. `verdict` and `summary`
hold raw values captured from tool-call JSON (pydantic does not validate
on assignment, so the loop's captured value is stored as-is). -/
structure Review where
  id : String
  project : String
  mr_url : String
  mr_id : String
  branch : Option String := none
  title : Option String := none
  author : Option String := none
  status : ReviewStatus := .queued
  verdict : Option JsonVal := none
  summary : Option JsonVal := none
  comments_posted : Nat := 0
  model : Option String := none
  error : Option String := none
  created_at : Nat
  started_at : Option Nat := none
  completed_at : Option Nat := none
deriving DecidableEq, Repr

/-- An `agents` row / `Agent` model (fields the modelled code touches). -/
structure AgentRec where
  review_id : String
  model : String
  status : String := "starting"
  input_tokens : Nat := 0
  output_tokens : Nat := 0
  cost_usd : Rat := 0
  num_turns : Nat := 0
  error : Option String := none
deriving DecidableEq, Repr

/-- Project settings consumed by the scheduler/agent
(`src/minions/project_registry.py`: `model` and `repo_path` default to `""`). -/
structure ProjectConfig where
  name : String
  project_id : String
  git_provider : String := "gitlab"
  repo_path : String := ""
  model : String := ""
deriving DecidableEq, Repr

/-- `x or y` for Python strings (empty string falls through). -/
def pyOrStr (x y : String) : String := if x = "" then y else x

/-- Stable ascending insertion by `created_at` (SQL
`ORDER BY created_at ASC`). -/
def insertByCreated (r : Review) : List Review → List Review
  | [] => [r]
  | x :: xs =>
    if x.created_at ≤ r.created_at then x :: insertByCreated r xs
    else r :: x :: xs

/-- The rows of a query sorted ascending by `created_at`. -/
def orderByCreatedAsc (l : List Review) : List Review :=
  l.foldr insertByCreated []

/-- `SQLiteDatabase.get_queued_reviews` (db.py lines 162-168):
`SELECT * FROM reviews WHERE status = 'queued' ORDER BY created_at ASC
LIMIT ?` over the table modelled as a row list in insertion order. -/
def get_queued_reviews (table : List Review) (limit : Nat) : List Review :=
  (orderByCreatedAsc (table.filter (fun r => r.status == .queued))).take limit

/-! ## `run_review` (`src/minions/agent.py` lines 25-118) -/

/-- Metadata of the merge request (`git_provider.PRInfo`; the fields the
modelled code reads). -/
structure PRInfo where
  title : String
  author : String
  branch : String
deriving DecidableEq, Repr

/-- The external world of one `run_review` call: the two metadata fetches,
the system prompt produced by the prompt builder (opaque), the tool
executor's collaborators and the per-turn completion outcomes. -/
structure RunEnv where
  pr : Except String PRInfo
  changed : Except String (List String)
  sysPrompt : String
  execEnv : ExecEnv
  script : Nat → TurnEnv

/-- `run_review` (agent.py lines 25-118): fetch MR metadata, run the agent
loop, and catch any exception into a failed `Agent` with
`error = str(e)[:500]`. Returns the `Agent` record and the mutated
in-memory `Review` object. -/
def run_review (review : Review) (project : ProjectConfig) (cfg : Config) (renv : RunEnv) :
    AgentRec × Review :=
  let model := pyOrStr project.model cfg.model
  let agent0 : AgentRec := { review_id := review.id, model := model }
  let fail (e : String) (rv : Review) : AgentRec × Review :=
    ({ agent0 with status := "failed", error := some (pyTake e 500) }, rv)
  match renv.pr with
  | .error e => fail e review
  | .ok pr =>
    match renv.changed with
    | .error e => fail e review
    | .ok _changed =>
      let review := { review with title := some pr.title, author := some pr.author,
                                  branch := some pr.branch }
      let ex : ToolExecutorCfg :=
        { project_id := project.project_id, mr_id := review.mr_id,
          repo_path := project.repo_path }
      match agentLoop cfg renv.execEnv ex renv.sysPrompt renv.script with
      | .error e => fail e review
      | .ok res =>
        let agent := { agent0 with
          input_tokens := res.total_input, output_tokens := res.total_output,
          cost_usd := res.total_cost, num_turns := res.num_turns, status := "done" }
        let review := { review with verdict := res.verdict, summary := some res.summary,
                                    comments_posted := res.execSt.comments_posted }
        (agent, review)

/-! ## The scheduler (`src/minions/review_engine.py`) -/

/-- `ReviewEngine._process_review` (review_engine.py lines 92-147) acting on
the stored row `review0` (the in-memory copy handed to `run_review` is the
row as fetched, before the `in_progress` update). `providerMade` is the
outcome of `_create_provider_for_project` (its `ValueError` carried as
`Except.error`); `tStart`/`tEnd` are the two `_now()` readings. The NATS
notifications are fire-and-forget and do not affect the stored row. -/
def process_review (projects : String → Option ProjectConfig) (cfg : Config)
    (providerMade : Except String Unit) (renv : RunEnv) (tStart tEnd : Nat)
    (review0 : Review) : Review :=
  match projects review0.project with
  | none =>
    { review0 with status := .failed,
                   error := some ("Project '" ++ review0.project ++ "' not in projects.yaml") }
  | some project =>
    let stored := { review0 with status := .in_progress, started_at := some tStart }
    match providerMade with
    | .error e => { stored with status := .failed, error := some e }
    | .ok _ =>
      let ar := run_review review0 project cfg renv
      if ar.1.status = "done" then
        { stored with status := .done, verdict := ar.2.verdict,
                      summary := ar.2.summary,
                      comments_posted := ar.2.comments_posted,
                      completed_at := some tEnd }
      else
        { stored with status := .failed, error := ar.1.error, completed_at := some tEnd }

/-- The queued rows fetched by one `_poll` cycle (review_engine.py lines
68-90): reap is modelled separately (see `EngineEvent`); with
`available = max_concurrent_reviews - active_count`, a non-positive
`available` skips the fetch, otherwise up to `available` rows are fetched. -/
def pollFetch (cfg : Config) (activeCount : Nat) (table : List Review) : List Review :=
  let available : Int := cfg.max_concurrent_reviews - activeCount
  if available ≤ 0 then []
  else get_queued_reviews table available.toNat

/-- The task names created by one `_poll` cycle, in launch order
(`asyncio.create_task(..., name=f"review-{review.id}")` per fetched row). -/
def pollLaunchNames (cfg : Config) (activeCount : Nat) (table : List Review) : List String :=
  (pollFetch cfg activeCount table).map (fun r => "review-" ++ r.id)

/-- Events that change the engine's tracked-task count: one tracked task
finishing (removed by the done-callback `discard` or the reap step), or one
`_poll` cycle launching over a given table state. -/
inductive EngineEvent where
  | taskDone
  | poll (table : List Review)

/-- Effect of one event on the tracked-task count. -/
def engineStep (cfg : Config) (a : Nat) : EngineEvent → Nat
  | .taskDone => a - 1
  | .poll table => a + (pollFetch cfg a table).length

/-- The tracked-task count after any sequence of events, starting from the
empty active set (`ReviewEngine.__init__`). -/
def engineRun (cfg : Config) (events : List EngineEvent) : Nat :=
  events.foldl (engineStep cfg) 0

/-! ## Helper lemmas -/

theorem postInlineCommentTool_execTrace (env : ExecEnv) (args : ArgMap) (st : ExecState) :
    (postInlineCommentTool env args st).2.execTrace = st.execTrace := by
  unfold postInlineCommentTool
  dsimp only
  split
  · rfl
  · split
    · rfl
    · split <;> rfl

theorem submitReviewTool_execTrace (env : ExecEnv) (args : ArgMap) (st : ExecState) :
    (submitReviewTool env args st).2.execTrace = st.execTrace := by
  unfold submitReviewTool
  dsimp only
  split <;> rfl

theorem executeInner_execTrace (ex : ToolExecutorCfg) (env : ExecEnv) (n : String)
    (args : ArgMap) (st : ExecState) :
    (executeInner ex env n args st).2.execTrace = st.execTrace := by
  unfold executeInner
  split
  · rfl
  · split
    · rfl
    · split
      · rfl
      · split
        · rfl
        · split
          · rfl
          · split
            · rfl
            · split
              · exact postInlineCommentTool_execTrace env args st
              · split
                · exact submitReviewTool_execTrace env args st
                · rfl

/-- `execute` records exactly one trace entry: the tool name with the
argument map it was dispatched with. -/
theorem execute_execTrace (ex : ToolExecutorCfg) (env : ExecEnv) (n : String)
    (args : ArgMap) (st : ExecState) :
    ((ex.execute env n args st).2).execTrace = st.execTrace ++ [(n, args)] := by
  unfold ToolExecutorCfg.execute
  have h := executeInner_execTrace ex env n args { st with execTrace := st.execTrace ++ [(n, args)] }
  rcases hi : executeInner ex env n args { st with execTrace := st.execTrace ++ [(n, args)] } with ⟨r, st2⟩
  rw [hi] at h
  cases r <;> simpa [hi] using h

theorem stepToolCall_num_turns (env : ExecEnv) (ex : ToolExecutorCfg) (tc : ToolCall)
    (st : LoopState) : (stepToolCall env ex tc st).num_turns = st.num_turns := by
  unfold stepToolCall
  split <;> rfl

theorem stepToolCall_verdict (env : ExecEnv) (ex : ToolExecutorCfg) (tc : ToolCall)
    (st : LoopState) :
    (stepToolCall env ex tc st).verdict =
      if tc.name = "submit_review" then (tc.argSrc.getD []).get "verdict" else st.verdict := by
  unfold stepToolCall
  split <;> simp_all

theorem stepToolCall_execTrace (env : ExecEnv) (ex : ToolExecutorCfg) (tc : ToolCall)
    (st : LoopState) :
    (stepToolCall env ex tc st).execSt.execTrace =
      st.execSt.execTrace ++ [(tc.name, tc.argSrc.getD [])] := by
  unfold stepToolCall
  split <;> simp [execute_execTrace]

theorem stepToolCalls_num_turns (env : ExecEnv) (ex : ToolExecutorCfg) (l : List ToolCall)
    (st : LoopState) : (stepToolCalls env ex l st).num_turns = st.num_turns := by
  induction l generalizing st with
  | nil => rfl
  | cons c cs ih =>
    show (stepToolCalls env ex cs (stepToolCall env ex c st)).num_turns = st.num_turns
    rw [ih, stepToolCall_num_turns]

theorem stepToolCalls_verdict_no_submit (env : ExecEnv) (ex : ToolExecutorCfg)
    (l : List ToolCall) (st : LoopState) (h : ∀ tc ∈ l, tc.name ≠ "submit_review") :
    (stepToolCalls env ex l st).verdict = st.verdict := by
  induction l generalizing st with
  | nil => rfl
  | cons c cs ih =>
    show (stepToolCalls env ex cs (stepToolCall env ex c st)).verdict = st.verdict
    rw [ih _ (fun tc htc => h tc (List.mem_cons_of_mem c htc)), stepToolCall_verdict]
    simp [h c (List.mem_cons_self c cs)]

theorem noteResponse_num_turns (resp : LLMResponse) (st : LoopState) :
    (noteResponse resp st).num_turns = st.num_turns := by
  unfold noteResponse
  rcases resp.usage with _ | u <;> rcases resp.cost with e | c <;> rfl

theorem noteResponse_verdict (resp : LLMResponse) (st : LoopState) :
    (noteResponse resp st).verdict = st.verdict := by
  unfold noteResponse
  rcases resp.usage with _ | u <;> rcases resp.cost with e | c <;> rfl

theorem noteResponse_execSt (resp : LLMResponse) (st : LoopState) :
    (noteResponse resp st).execSt = st.execSt := by
  unfold noteResponse
  rcases resp.usage with _ | u <;> rcases resp.cost with e | c <;> rfl

/-- The verdict determined by a dispatch trace: the `"verdict"` argument of
the last `submit_review` entry, if any (later submissions overwrite earlier
ones, and a `submit_review` without a parsed `"verdict"` key clears it). -/
def capturedVerdictOfTrace (tr : List (String × ArgMap)) : Option JsonVal :=
  tr.foldl (fun acc p => if p.1 = "submit_review" then p.2.get "verdict" else acc) none

theorem capturedVerdictOfTrace_append (tr : List (String × ArgMap)) (n : String) (m : ArgMap) :
    capturedVerdictOfTrace (tr ++ [(n, m)]) =
      if n = "submit_review" then m.get "verdict" else capturedVerdictOfTrace tr := by
  unfold capturedVerdictOfTrace
  rw [List.foldl_append]
  rfl

/-- Loop invariant: the captured `verdict` local equals the verdict
determined by the dispatch trace so far. -/
def VerdictInv (st : LoopState) : Prop :=
  st.verdict = capturedVerdictOfTrace st.execSt.execTrace

theorem stepToolCall_inv (env : ExecEnv) (ex : ToolExecutorCfg) (tc : ToolCall)
    (st : LoopState) (h : VerdictInv st) : VerdictInv (stepToolCall env ex tc st) := by
  unfold VerdictInv at *
  rw [stepToolCall_verdict, stepToolCall_execTrace, capturedVerdictOfTrace_append]
  split <;> simp [h]

theorem stepToolCalls_inv (env : ExecEnv) (ex : ToolExecutorCfg) (l : List ToolCall)
    (st : LoopState) (h : VerdictInv st) : VerdictInv (stepToolCalls env ex l st) := by
  induction l generalizing st with
  | nil => exact h
  | cons c cs ih =>
    show VerdictInv (stepToolCalls env ex cs (stepToolCall env ex c st))
    exact ih _ (stepToolCall_inv env ex c st h)

theorem noteResponse_inv (resp : LLMResponse) (st : LoopState) (h : VerdictInv st) :
    VerdictInv (noteResponse resp st) := by
  unfold VerdictInv at *
  rw [noteResponse_verdict, noteResponse_execSt]
  exact h

theorem numturns_inv (st : LoopState) (n : Nat) (h : VerdictInv st) :
    VerdictInv { st with num_turns := n } := h

/-- Along any successful run, the loop's captured verdict is exactly the
verdict of the last dispatched `submit_review` call. -/
theorem loopGo_inv (cfg : Config) (env : ExecEnv) (ex : ToolExecutorCfg)
    (script : Nat → TurnEnv) :
    ∀ fuel st r, VerdictInv st → loopGo cfg env ex script fuel st = .ok r → VerdictInv r := by
  intro fuel
  induction fuel with
  | zero =>
    intro st r h hr
    cases hr
    exact h
  | succ f ih =>
    intro st r h hr
    rw [loopGo] at hr
    dsimp only at hr
    split at hr
    · cases hr; exact h
    · split at hr
      · exact absurd hr (by simp)
      · split at hr
        · cases hr
          exact noteResponse_inv _ _ (numturns_inv _ _ h)
        · exact ih _ r (stepToolCalls_inv _ _ _ _ (noteResponse_inv _ _ (numturns_inv _ _ h))) hr

/-- `num_turns` never decreases along the loop. -/
theorem loopGo_turns_mono (cfg : Config) (env : ExecEnv) (ex : ToolExecutorCfg)
    (script : Nat → TurnEnv) :
    ∀ fuel st r, loopGo cfg env ex script fuel st = .ok r → st.num_turns ≤ r.num_turns := by
  intro fuel
  induction fuel with
  | zero =>
    intro st r hr
    cases hr
    exact Nat.le_refl _
  | succ f ih =>
    intro st r hr
    rw [loopGo] at hr
    dsimp only at hr
    split at hr
    · cases hr; exact Nat.le_refl _
    · split at hr
      · exact absurd hr (by simp)
      · split at hr
        · cases hr
          rw [noteResponse_num_turns]
          exact Nat.le_succ _
        · have h2 := ih _ r hr
          rw [stepToolCalls_num_turns, noteResponse_num_turns] at h2
          exact Nat.le_trans (Nat.le_succ _) h2

/-- If every completion call of the script succeeds, the loop cannot raise:
it always returns a result. -/
theorem loopGo_allOk (cfg : Config) (env : ExecEnv) (ex : ToolExecutorCfg)
    (script : Nat → TurnEnv) (hok : ∀ i, ∃ resp, (script i).llm = .ok resp) :
    ∀ fuel st, ∃ r, loopGo cfg env ex script fuel st = .ok r := by
  intro fuel
  induction fuel with
  | zero => intro st; exact ⟨st, rfl⟩
  | succ f ih =>
    intro st
    rw [loopGo]
    dsimp only
    split
    · exact ⟨st, rfl⟩
    · obtain ⟨resp, hresp⟩ := hok st.num_turns
      rw [hresp]
      dsimp only
      split
      · exact ⟨_, rfl⟩
      · exact ih _

/-- A run in which, from the current turn on, every iteration is under the
time budget, gets a successful response that neither stops nor omits tool
calls, and never dispatches `submit_review`, burns all its fuel: it ends
with `num_turns` increased by exactly `fuel` and the verdict unchanged. -/
theorem loopGo_exhaust (cfg : Config) (env : ExecEnv) (ex : ToolExecutorCfg)
    (script : Nat → TurnEnv) :
    ∀ fuel st,
      (∀ i, st.num_turns ≤ i → i < st.num_turns + fuel →
        (script i).elapsed ≤ cfg.agent_timeout ∧
        ∃ resp, (script i).llm = .ok resp ∧ ¬ resp.finish_reason = "stop" ∧
          ¬ resp.message.tool_calls = [] ∧
          ∀ tc ∈ resp.message.tool_calls, tc.name ≠ "submit_review") →
      ∃ r, loopGo cfg env ex script fuel st = .ok r ∧
        r.num_turns = st.num_turns + fuel ∧ r.verdict = st.verdict := by
  intro fuel
  induction fuel with
  | zero => intro st _; exact ⟨st, rfl, rfl, rfl⟩
  | succ f ih =>
    intro st h
    obtain ⟨hel, resp, hresp, hstop, hcalls, hnosub⟩ :=
      h st.num_turns (Nat.le_refl _) (by omega)
    rw [loopGo]
    dsimp only
    rw [if_neg (Nat.not_lt.mpr hel), hresp]
    dsimp only
    rw [if_neg (fun hor => hor.elim hstop hcalls)]
    set st1 := stepToolCalls env ex resp.message.tool_calls
      (noteResponse resp { st with num_turns := st.num_turns + 1 }) with hst1def
    have hst1n : st1.num_turns = st.num_turns + 1 := by
      rw [hst1def, stepToolCalls_num_turns, noteResponse_num_turns]
    have hst1v : st1.verdict = st.verdict := by
      rw [hst1def, stepToolCalls_verdict_no_submit _ _ _ _ hnosub, noteResponse_verdict]
    obtain ⟨r, hr, hn, hv⟩ := ih st1 (fun i hi1 hi2 => by
      rw [hst1n] at hi1 hi2
      exact h i (by omega) (by omega))
    exact ⟨r, hr, by rw [hn, hst1n]; omega, by rw [hv, hst1v]⟩

/-- One loop iteration whose response carries tool calls (and does not
signal `stop`) dispatches them and recurses — whether or not
`submit_review` is among them. -/
theorem loopGo_step (cfg : Config) (env : ExecEnv) (ex : ToolExecutorCfg)
    (script : Nat → TurnEnv) (fuel : Nat) (st : LoopState) (resp : LLMResponse)
    (hel : (script st.num_turns).elapsed ≤ cfg.agent_timeout)
    (hresp : (script st.num_turns).llm = .ok resp)
    (hstop : ¬ resp.finish_reason = "stop") (hcalls : ¬ resp.message.tool_calls = []) :
    loopGo cfg env ex script (fuel + 1) st =
      loopGo cfg env ex script fuel
        (stepToolCalls env ex resp.message.tool_calls
          (noteResponse resp { st with num_turns := st.num_turns + 1 })) := by
  rw [loopGo]
  dsimp only
  rw [if_neg (Nat.not_lt.mpr hel), hresp]
  dsimp only
  rw [if_neg (fun hor => hor.elim hstop hcalls)]

/-- The ascending `created_at` order of the queue query. -/
def reviewLE (a b : Review) : Prop := a.created_at ≤ b.created_at

theorem insertByCreated_perm (r : Review) (l : List Review) :
    List.Perm (insertByCreated r l) (r :: l) := by
  induction l with
  | nil => exact List.Perm.refl _
  | cons x xs ih =>
    unfold insertByCreated
    split
    · exact (ih.cons x).trans (List.Perm.swap r x xs)
    · exact List.Perm.refl _

theorem orderByCreatedAsc_perm (l : List Review) :
    List.Perm (orderByCreatedAsc l) l := by
  induction l with
  | nil => exact List.Perm.refl _
  | cons x xs ih =>
    show List.Perm (insertByCreated x (orderByCreatedAsc xs)) (x :: xs)
    exact (insertByCreated_perm x _).trans (ih.cons x)

theorem mem_insertByCreated {a r : Review} {l : List Review} :
    a ∈ insertByCreated r l ↔ a = r ∨ a ∈ l := by
  rw [(insertByCreated_perm r l).mem_iff]
  simp

theorem insertByCreated_sorted (r : Review) (l : List Review)
    (h : List.Sorted reviewLE l) : List.Sorted reviewLE (insertByCreated r l) := by
  induction l with
  | nil => simp [insertByCreated, reviewLE]
  | cons x xs ih =>
    rw [List.sorted_cons] at h
    unfold insertByCreated
    split
    · rename_i hxr
      rw [List.sorted_cons]
      refine ⟨fun b hb => ?_, ih h.2⟩
      rcases mem_insertByCreated.mp hb with hb | hb
      · rw [hb]; exact hxr
      · exact h.1 b hb
    · rename_i hxr
      rw [List.sorted_cons]
      refine ⟨fun b hb => ?_, List.sorted_cons.mpr h⟩
      have hrx : r.created_at ≤ x.created_at := Nat.le_of_lt (Nat.lt_of_not_le hxr)
      rcases List.mem_cons.mp hb with hb | hb
      · rw [hb]; exact hrx
      · exact Nat.le_trans hrx (h.1 b hb)

theorem orderByCreatedAsc_sorted (l : List Review) :
    List.Sorted reviewLE (orderByCreatedAsc l) := by
  induction l with
  | nil => exact List.sorted_nil
  | cons x xs ih =>
    exact insertByCreated_sorted x (orderByCreatedAsc xs) ih

/-- One poll cycle can launch at most `max(0, max_concurrent − active)`
sessions. -/
theorem pollFetch_length_le (cfg : Config) (a : Nat) (table : List Review) :
    (pollFetch cfg a table).length ≤ (cfg.max_concurrent_reviews - (a : Int)).toNat := by
  unfold pollFetch
  dsimp only
  split
  · simp
  · exact List.length_take_le _ _

theorem engineStep_le (cfg : Config) (e : EngineEvent) (a : Nat)
    (h : (a : Int) ≤ cfg.max_concurrent_reviews) :
    ((engineStep cfg a e : Nat) : Int) ≤ cfg.max_concurrent_reviews := by
  cases e with
  | taskDone =>
    show (((a - 1 : Nat) : Nat) : Int) ≤ _
    omega
  | poll table =>
    show ((a + (pollFetch cfg a table).length : Nat) : Int) ≤ _
    have hlen := pollFetch_length_le cfg a table
    omega

theorem engineRun_le_aux (cfg : Config) (events : List EngineEvent) :
    ∀ a : Nat, (a : Int) ≤ cfg.max_concurrent_reviews →
      ((events.foldl (engineStep cfg) a : Nat) : Int) ≤ cfg.max_concurrent_reviews := by
  induction events with
  | nil => intro a h; exact h
  | cons e es ih =>
    intro a h
    exact ih _ (engineStep_le cfg e a h)

/-- Characterization of the scheduler's stored row when the project is
registered, the provider is constructed, both metadata fetches succeed and
the agent loop returns normally: the review is recorded `done` with the
loop's captured verdict and the `error` column untouched. -/
theorem process_review_done (projects : String → Option ProjectConfig) (cfg : Config)
    (renv : RunEnv) (tS tE : Nat) (review0 : Review) (project : ProjectConfig)
    (pr : PRInfo) (files : List String) (r : LoopState)
    (hproj : projects review0.project = some project)
    (hpr : renv.pr = .ok pr) (hch : renv.changed = .ok files)
    (hloop : agentLoop cfg renv.execEnv
      { project_id := project.project_id, mr_id := review0.mr_id,
        repo_path := project.repo_path } renv.sysPrompt renv.script = .ok r) :
    process_review projects cfg (.ok ()) renv tS tE review0 =
      { review0 with status := .done, started_at := some tS, verdict := r.verdict,
                     summary := some r.summary,
                     comments_posted := r.execSt.comments_posted,
                     completed_at := some tE } := by
  unfold process_review
  rw [hproj]
  dsimp only
  unfold run_review
  rw [hpr, hch]
  dsimp only
  rw [hloop]
  dsimp only
  rw [if_pos rfl]

/-- Characterization of the stored row when the agent loop raises: the
review is recorded `failed` with the exception message truncated to 500
characters. -/
theorem process_review_loop_error (projects : String → Option ProjectConfig) (cfg : Config)
    (renv : RunEnv) (tS tE : Nat) (review0 : Review) (project : ProjectConfig)
    (pr : PRInfo) (files : List String) (e : String)
    (hproj : projects review0.project = some project)
    (hpr : renv.pr = .ok pr) (hch : renv.changed = .ok files)
    (hloop : agentLoop cfg renv.execEnv
      { project_id := project.project_id, mr_id := review0.mr_id,
        repo_path := project.repo_path } renv.sysPrompt renv.script = .error e) :
    process_review projects cfg (.ok ()) renv tS tE review0 =
      { review0 with status := .failed, started_at := some tS,
                     error := some (pyTake e 500), completed_at := some tE } := by
  unfold process_review
  rw [hproj]
  dsimp only
  unfold run_review
  rw [hpr, hch]
  dsimp only
  rw [hloop]
  dsimp only
  rw [if_neg (by decide)]

/-! ## Concrete instances used by witnesses and counterexamples -/

/-- A well-behaved provider/filesystem environment. -/
def envC : ExecEnv :=
  { diffResult := .ok "diff --git a/x.py b/x.py", changedFiles := .ok ["x.py"],
    commentsResult := .ok [], postOutcome := fun _ _ _ => .ok (),
    submitOutcome := fun _ _ => .ok .null, fs := fun _ => none,
    rg := fun _ _ => .notFound, globMatches := fun _ => [] }

def exC : ToolExecutorCfg := { project_id := "team/api", mr_id := "42", repo_path := "" }

def projCfgC : ProjectConfig := { name := "proj", project_id := "team/api" }

def projectsC : String → Option ProjectConfig :=
  fun s => if s = "proj" then some projCfgC else none

def reviewC : Review :=
  { id := "r1", project := "proj", mr_url := "https://git.example/mr/42", mr_id := "42",
    created_at := 7 }

def prC : PRInfo := { title := "Add feature", author := "alice", branch := "feature-1" }

/-- A response that terminates the conversation (`finish_reason = "stop"`). -/
def respStopC : LLMResponse :=
  { usage := none, cost := .error "no cost", finish_reason := "stop",
    message := { content := none, tool_calls := [] } }

def submitApproveCallC : ToolCall :=
  ⟨"c1", "submit_review", some [("verdict", .str "approve"), ("body", .str "LGTM")]⟩

def submitRejectCallC : ToolCall :=
  ⟨"c2", "submit_review", some [("verdict", .str "request_changes"), ("body", .str "needs work")]⟩

/-- A turn whose only tool call submits an approve verdict. -/
def respSubmitC : LLMResponse :=
  { usage := some { prompt_tokens := some 10, completion_tokens := some 5 },
    cost := .error "no cost", finish_reason := "tool_calls",
    message := { content := some "submitting", tool_calls := [submitApproveCallC] } }

/-- A turn that submits approve and then submits request_changes. -/
def respTwoSubmitC : LLMResponse :=
  { usage := none, cost := .error "no cost", finish_reason := "tool_calls",
    message := { content := none, tool_calls := [submitApproveCallC, submitRejectCallC] } }

/-- A turn that only fetches the diff and never concludes. -/
def respLoopC : LLMResponse :=
  { usage := none, cost := .error "no cost", finish_reason := "tool_calls",
    message := { content := none, tool_calls := [⟨"c0", "get_mr_diff", some []⟩] } }

def scriptTimeoutC : Nat → TurnEnv := fun _ => ⟨601, .ok respStopC⟩

def scriptSubmitStopC : Nat → TurnEnv :=
  fun i => if i = 0 then ⟨0, .ok respSubmitC⟩ else ⟨0, .ok respStopC⟩

def scriptTwoSubmitC : Nat → TurnEnv :=
  fun i => if i = 0 then ⟨0, .ok respTwoSubmitC⟩ else ⟨0, .ok respStopC⟩

def scriptLoopC : Nat → TurnEnv := fun _ => ⟨0, .ok respLoopC⟩

def renvOf (s : Nat → TurnEnv) : RunEnv :=
  { pr := .ok prC, changed := .ok ["x.py"], sysPrompt := "sys", execEnv := envC, script := s }

def rvA : Review := { id := "a", project := "proj", mr_url := "u", mr_id := "1", created_at := 3 }

def rvB : Review := { id := "b", project := "proj", mr_url := "u", mr_id := "2", created_at := 1 }

def rvC : Review :=
  { id := "c", project := "proj", mr_url := "u", mr_id := "3", created_at := 2, status := .done }

def rvD : Review := { id := "d", project := "proj", mr_url := "u", mr_id := "4", created_at := 2 }

def tableC : List Review := [rvA, rvB, rvC, rvD]

/-- The 150000-character diff payload of the truncation test. -/
def bigDiffC : String := String.mk (List.replicate 150000 'a')

def envBigC : ExecEnv := { envC with diffResult := .ok bigDiffC }

/-- The loop result of running `scriptSubmitStopC`: the approve verdict is
captured on turn 1, and the loop still runs a second turn. -/
def loopResSubmitStopC : LoopState :=
  { total_input := 10, total_output := 5, total_cost := 0, num_turns := 2,
    verdict := some (.str "approve"), summary := .str "LGTM",
    messages := [Msg.system "sys",
      Msg.user "Please review the merge request described in your context. Start by reading the diff.",
      Msg.assistant { content := some "submitting", tool_calls := [submitApproveCallC] },
      Msg.toolResult "c1" "null",
      Msg.assistant { content := none, tool_calls := [] }],
    execSt :=
      { comments_posted := 0,
        execTrace := [("submit_review", [("verdict", .str "approve"), ("body", .str "LGTM")])],
        submitTrace := [(.str "approve", .str "LGTM")], postTrace := [] } }

/-! ## Claims -/

/-- C3: for every configuration with `max_concurrent_reviews = M ≥ 0` and
every reachable state of the engine (any sequence of task completions and
poll cycles over any table states, starting from the empty active set), the
number of tracked active session tasks never exceeds `M`; moreover one poll
cycle launches at most `max(0, M − active_count)` new sessions. -/
theorem claim_C3_capacity_bound (cfg : Config) (events : List EngineEvent)
    (hM : 0 ≤ cfg.max_concurrent_reviews) :
    ((engineRun cfg events : Nat) : Int) ≤ cfg.max_concurrent_reviews ∧
    ∀ (a : Nat) (table : List Review),
      ((pollFetch cfg a table).length : Int) ≤ max (cfg.max_concurrent_reviews - (a : Int)) 0 := by
  constructor
  · exact engineRun_le_aux cfg events 0 (by exact_mod_cast hM)
  · intro a table
    have h := pollFetch_length_le cfg a table
    omega

/-- Witness for C3 at the default configuration (`M = 3`), a queue of four
reviews and three poll cycles with one completion in between. -/
theorem claim_C3_capacity_bound_witness :
    ((engineRun {} [.poll tableC, .poll tableC, .taskDone, .poll tableC] : Nat) : Int) ≤
      ({} : Config).max_concurrent_reviews ∧
    ((pollFetch {} 1 tableC).length : Int) ≤ max (({} : Config).max_concurrent_reviews - (1 : Int)) 0 := by
  have h := claim_C3_capacity_bound {} [.poll tableC, .poll tableC, .taskDone, .poll tableC]
    (by decide)
  exact ⟨h.1, h.2 1 tableC⟩

/-- C4: queue admission is FIFO by creation time — `get_queued_reviews`
returns only `queued` rows, sorted ascending by `created_at`, truncated to
`limit`, skipping no strictly-older queued row; and a poll cycle with spare
capacity launches exactly the rows of that query, in the returned order. -/
theorem claim_C4_fifo_admission (table : List Review) (limit : Nat) (cfg : Config) (a : Nat) :
    (∀ r ∈ get_queued_reviews table limit, r.status = .queued) ∧
    List.Sorted reviewLE (get_queued_reviews table limit) ∧
    (get_queued_reviews table limit).length ≤ limit ∧
    (∀ r ∈ get_queued_reviews table limit, ∀ s ∈ table, s.status = .queued →
      s.created_at < r.created_at → s ∈ get_queued_reviews table limit) ∧
    ((a : Int) < cfg.max_concurrent_reviews →
      pollFetch cfg a table =
        get_queued_reviews table (cfg.max_concurrent_reviews - (a : Int)).toNat) ∧
    pollLaunchNames cfg a table = (pollFetch cfg a table).map (fun r => "review-" ++ r.id) := by
  have hsub : List.Sublist (get_queued_reviews table limit)
      (orderByCreatedAsc (table.filter (fun r => r.status == .queued))) :=
    List.take_sublist _ _
  have hperm := orderByCreatedAsc_perm (table.filter (fun r => r.status == .queued))
  have hsorted := orderByCreatedAsc_sorted (table.filter (fun r => r.status == .queued))
  refine ⟨?_, ?_, ?_, ?_, ?_, rfl⟩
  · intro r hr
    have hmem : r ∈ table.filter (fun r => r.status == .queued) :=
      hperm.mem_iff.mp (hsub.mem hr)
    have := (List.mem_filter.mp hmem).2
    simpa using this
  · exact List.Pairwise.sublist hsub hsorted
  · exact List.length_take_le _ _
  · intro r hr s hs hsq hlt
    have hsL : s ∈ orderByCreatedAsc (table.filter (fun r => r.status == .queued)) :=
      hperm.mem_iff.mpr (List.mem_filter.mpr ⟨hs, by simp [hsq]⟩)
    by_contra hns
    have hsplit : orderByCreatedAsc (table.filter (fun r => r.status == .queued)) =
        (orderByCreatedAsc (table.filter (fun r => r.status == .queued))).take limit ++
        (orderByCreatedAsc (table.filter (fun r => r.status == .queued))).drop limit :=
      (List.take_append_drop limit _).symm
    have hsd : s ∈ (orderByCreatedAsc (table.filter (fun r => r.status == .queued))).drop limit := by
      rcases List.mem_append.mp (hsplit ▸ hsL) with h | h
      · exact absurd h hns
      · exact h
    have hpair := (List.pairwise_append.mp (hsplit ▸ hsorted)).2.2 r hr s hsd
    exact absurd hpair (Nat.not_le.mpr hlt)
  · intro hlt
    unfold pollFetch
    dsimp only
    rw [if_neg (by omega)]

/-- Witness for C4 on a four-row table with capacity for two: the two
oldest queued rows are fetched (the younger queued row `rvA` waits, and the
stale `done` row is skipped), in ascending creation order. -/
theorem claim_C4_fifo_admission_witness :
    rvB ∈ get_queued_reviews tableC 2 ∧
    List.Sorted reviewLE (get_queued_reviews tableC 2) ∧
    (get_queued_reviews tableC 2).length ≤ 2 ∧
    pollLaunchNames {} 1 tableC = (pollFetch {} 1 tableC).map (fun r => "review-" ++ r.id) := by
  have h := claim_C4_fifo_admission tableC 2 {} 1
  refine ⟨?_, h.2.1, h.2.2.1, h.2.2.2.2.2⟩
  exact h.2.2.2.1 rvD (by decide) rvB (by decide) (by decide) (by decide)

/-- Whether a session outcome is a normal return (no exception). -/
def isOkE (x : Except String LoopState) : Bool :=
  match x with
  | .ok _ => true
  | .error _ => false

/-- The `num_turns` of a session's result dict (0 if the session raised). -/
def loopTurns (x : Except String LoopState) : Nat :=
  match x with
  | .ok r => r.num_turns
  | .error _ => 0

/-- The captured verdict of a session's result dict (none if it raised). -/
def loopVerdict (x : Except String LoopState) : Option JsonVal :=
  match x with
  | .ok r => r.verdict
  | .error _ => none

/-- C7: the `get_mr_diff` tool result is the provider's diff unchanged when
it has at most 100000 characters, and otherwise is exactly the first
100000 characters followed by the fixed truncation marker, verbatim. -/
theorem claim_C7_diff_truncation (ex : ToolExecutorCfg) (env : ExecEnv) (args : ArgMap)
    (st : ExecState) (d : String) (hd : env.diffResult = .ok d) :
    (pyLen d ≤ 100000 → (ex.execute env "get_mr_diff" args st).1 = d) ∧
    (100000 < pyLen d → (ex.execute env "get_mr_diff" args st).1 =
      pyTake d 100000 ++
        "\n\n... [diff truncated at 100k chars — use read_file for full context]") := by
  constructor <;> intro h
  · simp [ToolExecutorCfg.execute, executeInner, getDiffTool, hd, Nat.not_lt.mpr h]
  · simp [ToolExecutorCfg.execute, executeInner, getDiffTool, hd, h]

/-- Witness for C7 at a 150000-character payload: the result is exactly
100000 copies of the character followed by the verbatim marker. -/
theorem claim_C7_diff_truncation_witness :
    100000 < pyLen bigDiffC ∧
    (exC.execute envBigC "get_mr_diff" [] ExecState.init).1 =
      String.mk (List.replicate 100000 'a') ++
        "\n\n... [diff truncated at 100k chars — use read_file for full context]" := by
  have hlen : pyLen bigDiffC = 150000 := by
    show (List.replicate 150000 'a').length = 150000
    exact List.length_replicate 150000 'a'
  have h1 : 100000 < pyLen bigDiffC := by rw [hlen]; norm_num
  have h2 := (claim_C7_diff_truncation exC envBigC [] ExecState.init bigDiffC rfl).2 h1
  refine ⟨h1, ?_⟩
  rw [h2]
  have h3 : pyTake bigDiffC 100000 = String.mk (List.replicate 100000 'a') := by
    show String.mk ((List.replicate 150000 'a').take 100000) = _
    rw [List.take_replicate]
    norm_num
  rw [h3]

/-- The eight capability names dispatched by `ToolExecutor.execute`. -/
def knownToolNames : List String :=
  ["get_mr_diff", "get_changed_files", "read_file", "search_code", "list_files",
   "get_mr_comments", "post_inline_comment", "submit_review"]

/-- C8: `execute` is total (it returns a string for every tool name and
argument map — exceptions cannot escape it): an unknown tool name yields the
structured `Unknown tool` error, any exception escaping a capability
handler is converted to a structured error result, and `read_file` with no
local `repo_path` configured returns a structured error for every argument
map. -/
theorem claim_C8_execute_never_raises (ex : ToolExecutorCfg) (env : ExecEnv) (name : String)
    (args : ArgMap) (st : ExecState) :
    (name ∉ knownToolNames →
      (ex.execute env name args st).1 = jsonError ("Unknown tool: " ++ name)) ∧
    (∀ e st2,
      executeInner ex env name args { st with execTrace := st.execTrace ++ [(name, args)] } =
        (.error e, st2) →
      ex.execute env name args st = (jsonError e, st2)) ∧
    (ex.repo_path = "" →
      (ex.execute env "read_file" args st).1 = jsonError "path is required" ∨
      (ex.execute env "read_file" args st).1 =
        jsonError "No local repo path configured — cannot read files") := by
  refine ⟨?_, ?_, ?_⟩
  · intro hn
    have h1 : ¬ name = "get_mr_diff" := fun h => hn (by rw [h]; decide)
    have h2 : ¬ name = "get_changed_files" := fun h => hn (by rw [h]; decide)
    have h3 : ¬ name = "read_file" := fun h => hn (by rw [h]; decide)
    have h4 : ¬ name = "search_code" := fun h => hn (by rw [h]; decide)
    have h5 : ¬ name = "list_files" := fun h => hn (by rw [h]; decide)
    have h6 : ¬ name = "get_mr_comments" := fun h => hn (by rw [h]; decide)
    have h7 : ¬ name = "post_inline_comment" := fun h => hn (by rw [h]; decide)
    have h8 : ¬ name = "submit_review" := fun h => hn (by rw [h]; decide)
    simp [ToolExecutorCfg.execute, executeInner, h1, h2, h3, h4, h5, h6, h7, h8]
  · intro e st2 hinner
    unfold ToolExecutorCfg.execute
    dsimp only
    rw [hinner]
  · intro hrepo
    unfold ToolExecutorCfg.execute
    dsimp only
    by_cases hp : (args.getD "path" (.str "")).falsy = true
    · left
      simp [executeInner, readFileTool, hp]
    · right
      simp [executeInner, readFileTool, hp, hrepo]

/-- Witness for C8: an unknown tool name at a concrete environment yields
the structured error, and `read_file` without a local checkout yields a
structured error. -/
theorem claim_C8_execute_never_raises_witness :
    (exC.execute envC "bogus_tool" [] ExecState.init).1 =
      jsonError ("Unknown tool: " ++ "bogus_tool") ∧
    ((exC.execute envC "read_file" [("path", .str "x.py")] ExecState.init).1 =
      jsonError "path is required" ∨
     (exC.execute envC "read_file" [("path", .str "x.py")] ExecState.init).1 =
      jsonError "No local repo path configured — cannot read files") := by
  refine ⟨?_, ?_⟩
  · exact (claim_C8_execute_never_raises exC envC "bogus_tool" [] ExecState.init).1 (by decide)
  · exact (claim_C8_execute_never_raises exC envC "read_file"
      [("path", .str "x.py")] ExecState.init).2.2 rfl

theorem submitReviewTool_submitTrace (env : ExecEnv) (args : ArgMap) (st : ExecState) :
    (submitReviewTool env args st).2.submitTrace =
      st.submitTrace ++
        [(args.getD "verdict" (.str "request_changes"), args.getD "body" (.str ""))] := by
  unfold submitReviewTool
  dsimp only
  split <;> rfl

theorem execute_submit_submitTrace (ex : ToolExecutorCfg) (env : ExecEnv) (args : ArgMap)
    (st : ExecState) :
    ((ex.execute env "submit_review" args st).2).submitTrace =
      st.submitTrace ++
        [(args.getD "verdict" (.str "request_changes"), args.getD "body" (.str ""))] := by
  unfold ToolExecutorCfg.execute
  dsimp only
  rw [show executeInner ex env "submit_review" args
      { st with execTrace := st.execTrace ++ [("submit_review", args)] } =
      submitReviewTool env args
        { st with execTrace := st.execTrace ++ [("submit_review", args)] } from by
    simp [executeInner]]
  have ht := submitReviewTool_submitTrace env args
    { st with execTrace := st.execTrace ++ [("submit_review", args)] }
  rcases hs : submitReviewTool env args
      { st with execTrace := st.execTrace ++ [("submit_review", args)] } with ⟨res, st2⟩
  rw [hs] at ht
  cases res <;> exact ht

theorem stepToolCall_execSt (env : ExecEnv) (ex : ToolExecutorCfg) (tc : ToolCall)
    (st : LoopState) :
    (stepToolCall env ex tc st).execSt =
      (ex.execute env tc.name (tc.argSrc.getD []) st.execSt).2 := by
  unfold stepToolCall
  split <;> rfl

theorem stepToolCall_messages (env : ExecEnv) (ex : ToolExecutorCfg) (tc : ToolCall)
    (st : LoopState) :
    (stepToolCall env ex tc st).messages =
      st.messages ++
        [Msg.toolResult tc.id (ex.execute env tc.name (tc.argSrc.getD []) st.execSt).1] := by
  unfold stepToolCall
  split <;> rfl

/-- C10: a `submit_review` call whose parsed arguments lack `"verdict"`
submits `"request_changes"` to the git provider while the session records
no verdict at all — the provider-visible verdict and the recorded verdict
diverge. -/
theorem claim_C10_submit_default_divergence (env : ExecEnv) (ex : ToolExecutorCfg)
    (st : LoopState) (m : ArgMap) (cid : String) (hm : m.get "verdict" = none) :
    (stepToolCall env ex ⟨cid, "submit_review", some m⟩ st).verdict = none ∧
    (stepToolCall env ex ⟨cid, "submit_review", some m⟩ st).execSt.submitTrace =
      st.execSt.submitTrace ++ [(.str "request_changes", m.getD "body" (.str ""))] := by
  constructor
  · rw [stepToolCall_verdict]
    simp [hm]
  · rw [stepToolCall_execSt]
    dsimp only
    rw [execute_submit_submitTrace]
    simp [ArgMap.getD, hm]

/-- Witness for C10: a `submit_review` whose arguments carry only a body
(e.g. after partial argument loss) sends `request_changes` to the provider
and leaves the captured verdict empty. -/
theorem claim_C10_submit_default_divergence_witness :
    (stepToolCall envC exC ⟨"c9", "submit_review", some [("body", .str "summary")]⟩
      (agentInitState "sys")).verdict = none ∧
    (stepToolCall envC exC ⟨"c9", "submit_review", some [("body", .str "summary")]⟩
      (agentInitState "sys")).execSt.submitTrace =
      (agentInitState "sys").execSt.submitTrace ++ [(.str "request_changes", .str "summary")] := by
  have h := claim_C10_submit_default_divergence envC exC (agentInitState "sys")
    [("body", .str "summary")] "c9" (by decide)
  exact ⟨h.1, h.2.trans (by decide)⟩

/-- C9: a tool call whose arguments string fails JSON decoding is
dispatched to `ToolExecutor.execute` with the empty argument map, the turn
proceeds normally (the tool-result message is appended as usual), and the
session cannot fail because of it: whenever every completion call
succeeds, the loop returns a result. -/
theorem claim_C9_malformed_arguments (cfg : Config) (env : ExecEnv) (ex : ToolExecutorCfg)
    (sp : String) (script : Nat → TurnEnv) (tc : ToolCall) (st : LoopState)
    (hok : ∀ i, ∃ resp, (script i).llm = .ok resp) (hmal : tc.argSrc = none) :
    (∃ r, agentLoop cfg env ex sp script = .ok r) ∧
    (stepToolCall env ex tc st).execSt.execTrace =
      st.execSt.execTrace ++ [(tc.name, ([] : ArgMap))] ∧
    (stepToolCall env ex tc st).messages =
      st.messages ++ [Msg.toolResult tc.id (ex.execute env tc.name ([] : ArgMap) st.execSt).1] := by
  refine ⟨loopGo_allOk cfg env ex script hok agentMaxTurns _, ?_, ?_⟩
  · rw [stepToolCall_execTrace, hmal]
    rfl
  · rw [stepToolCall_messages, hmal]
    rfl

/-- Witness for C9: a malformed `get_changed_files` call is dispatched with
the empty map (as the trace records), and the session of
`scriptSubmitStopC` still returns normally. -/
theorem claim_C9_malformed_arguments_witness :
    (stepToolCall envC exC ⟨"cx", "get_changed_files", none⟩
      (agentInitState "sys")).execSt.execTrace =
      (agentInitState "sys").execSt.execTrace ++ [("get_changed_files", ([] : ArgMap))] ∧
    isOkE (agentLoop {} envC exC "sys" scriptSubmitStopC) = true := by
  have h := claim_C9_malformed_arguments {} envC exC "sys" scriptSubmitStopC
    ⟨"cx", "get_changed_files", none⟩ (agentInitState "sys")
    (fun i => by
      by_cases h0 : i = 0
      · exact ⟨respSubmitC, by simp [scriptSubmitStopC, h0]⟩
      · exact ⟨respStopC, by simp [scriptSubmitStopC, h0]⟩) rfl
  refine ⟨h.2.1, ?_⟩
  obtain ⟨r, hr⟩ := h.1
  rw [hr]
  rfl

/-- C5: a session in which every completion call succeeds, no response
stops or omits tool calls, no tool call is `submit_review`, and the clock
stays within the timeout, exits by exhausting the turn budget: it returns
normally with no verdict and `num_turns` exactly `max_turns = 30`. -/
theorem claim_C5_turn_budget_exhaustion (cfg : Config) (env : ExecEnv) (ex : ToolExecutorCfg)
    (sp : String) (script : Nat → TurnEnv)
    (h : ∀ i, i < agentMaxTurns →
      (script i).elapsed ≤ cfg.agent_timeout ∧
      ∃ resp, (script i).llm = .ok resp ∧ ¬ resp.finish_reason = "stop" ∧
        ¬ resp.message.tool_calls = [] ∧
        ∀ tcall ∈ resp.message.tool_calls, tcall.name ≠ "submit_review") :
    isOkE (agentLoop cfg env ex sp script) = true ∧
    loopTurns (agentLoop cfg env ex sp script) = 30 ∧
    loopVerdict (agentLoop cfg env ex sp script) = none := by
  obtain ⟨r, hr, hn, hv⟩ := loopGo_exhaust cfg env ex script agentMaxTurns (agentInitState sp)
    (fun i _ hi2 => h i (by simpa [agentInitState] using hi2))
  unfold agentLoop
  rw [hr]
  refine ⟨rfl, ?_, ?_⟩
  · show r.num_turns = 30
    rw [hn]
    rfl
  · show r.verdict = none
    rw [hv]
    rfl

/-- Witness for C5: a model that fetches the diff every turn and never
concludes makes the session end at exactly 30 turns with no verdict. -/
theorem claim_C5_turn_budget_exhaustion_witness :
    loopTurns (agentLoop {} envC exC "sys" scriptLoopC) = 30 ∧
    loopVerdict (agentLoop {} envC exC "sys" scriptLoopC) = none := by
  have h := claim_C5_turn_budget_exhaustion {} envC exC "sys" scriptLoopC
    (fun i _ => ⟨Nat.zero_le _, respLoopC, rfl, by decide, by decide, by decide⟩)
  exact ⟨h.2.1, h.2.2⟩

/-- C2 counterexample: in the run of `scriptSubmitStopC`, turn 1's only
tool call is `submit_review`, yet the session performs a second
completion-API request (`num_turns = 2`): the submit turn is not terminal. -/
theorem claim_C2_counterexample :
    (scriptSubmitStopC 0).llm = .ok respSubmitC ∧
    respSubmitC.message.tool_calls.map (fun c => c.name) = ["submit_review"] ∧
    loopTurns (agentLoop {} envC exC "sys" scriptSubmitStopC) = 2 ∧
    ¬ loopTurns (agentLoop {} envC exC "sys" scriptSubmitStopC) ≤ 1 := by
  refine ⟨rfl, rfl, ?_, ?_⟩ <;> decide

/-- C2 (amended): a turn that dispatches tool calls — `submit_review`
included — is not terminal: if the response did not signal `stop`, the
turn and time budgets are not exhausted, and the session returns normally,
then the loop sends at least one further completion-API request after
that turn. -/
theorem claim_C2_amended_not_terminal (cfg : Config) (env : ExecEnv) (ex : ToolExecutorCfg)
    (script : Nat → TurnEnv) (fuel : Nat) (st : LoopState) (r : LoopState) (resp : LLMResponse)
    (hrun : loopGo cfg env ex script (fuel + 1) st = .ok r)
    (hel : (script st.num_turns).elapsed ≤ cfg.agent_timeout)
    (hresp : (script st.num_turns).llm = .ok resp)
    (hstop : ¬ resp.finish_reason = "stop")
    (hcalls : ¬ resp.message.tool_calls = [])
    (hel2 : (script (st.num_turns + 1)).elapsed ≤ cfg.agent_timeout)
    (hfuel : 1 ≤ fuel) :
    st.num_turns + 2 ≤ r.num_turns := by
  rw [loopGo_step cfg env ex script fuel st resp hel hresp hstop hcalls] at hrun
  set st1 := stepToolCalls env ex resp.message.tool_calls
    (noteResponse resp { st with num_turns := st.num_turns + 1 }) with hst1
  have hst1n : st1.num_turns = st.num_turns + 1 := by
    rw [hst1, stepToolCalls_num_turns, noteResponse_num_turns]
  obtain ⟨f, rfl⟩ : ∃ f2, fuel = f2 + 1 := ⟨fuel - 1, by omega⟩
  rw [loopGo] at hrun
  dsimp only at hrun
  rw [if_neg (Nat.not_lt.mpr (by rw [hst1n]; exact hel2))] at hrun
  split at hrun
  · exact absurd hrun (by simp)
  · split at hrun
    · cases hrun
      rw [noteResponse_num_turns]
      dsimp only
      omega
    · have hm := loopGo_turns_mono cfg env ex script _ _ _ hrun
      rw [stepToolCalls_num_turns, noteResponse_num_turns] at hm
      dsimp only at hm
      omega

/-- Witness for C2 (amended): in the `scriptSubmitStopC` run, the loop
performs a second request after the submit turn. -/
theorem claim_C2_amended_not_terminal_witness :
    (agentInitState "sys").num_turns + 2 ≤ loopResSubmitStopC.num_turns := by
  have hrun : loopGo {} envC exC scriptSubmitStopC (29 + 1) (agentInitState "sys") =
      .ok loopResSubmitStopC := by decide
  exact claim_C2_amended_not_terminal {} envC exC scriptSubmitStopC 29 (agentInitState "sys")
    loopResSubmitStopC respSubmitC hrun (by decide) (by decide) (by decide) (by decide)
    (by decide) (by decide)

/-- C1 counterexample: a session that exhausts the wall-clock timeout with
no `submit_review` call completes normally, and the scheduler records the
review as `done` with no verdict (and no error) — not as `failed`. -/
theorem claim_C1_counterexample :
    (process_review projectsC {} (.ok ()) (renvOf scriptTimeoutC) 1 2 reviewC).status = .done ∧
    (process_review projectsC {} (.ok ()) (renvOf scriptTimeoutC) 1 2 reviewC).verdict = none ∧
    (process_review projectsC {} (.ok ()) (renvOf scriptTimeoutC) 1 2 reviewC).error = none := by
  refine ⟨?_, ?_, ?_⟩ <;> decide

/-- C1 (amended): a session whose loop runs to the end without raising —
including one that exhausts turns or the timeout with no terminal action —
is recorded `done` with whatever verdict was captured (possibly none) and
the `error` column untouched; the review is recorded `failed` exactly when
the session raises, and then `error` is the exception message truncated to
500 characters (empty only if the message is). -/
theorem claim_C1_amended_session_end (projects : String → Option ProjectConfig) (cfg : Config)
    (renv : RunEnv) (tS tE : Nat) (review0 : Review) (project : ProjectConfig)
    (pr : PRInfo) (files : List String)
    (hproj : projects review0.project = some project)
    (hpr : renv.pr = .ok pr) (hch : renv.changed = .ok files) :
    (∀ r, agentLoop cfg renv.execEnv
        { project_id := project.project_id, mr_id := review0.mr_id,
          repo_path := project.repo_path } renv.sysPrompt renv.script = .ok r →
      (process_review projects cfg (.ok ()) renv tS tE review0).status = .done ∧
      (process_review projects cfg (.ok ()) renv tS tE review0).verdict = r.verdict ∧
      (process_review projects cfg (.ok ()) renv tS tE review0).error = review0.error) ∧
    (∀ e, agentLoop cfg renv.execEnv
        { project_id := project.project_id, mr_id := review0.mr_id,
          repo_path := project.repo_path } renv.sysPrompt renv.script = .error e →
      (process_review projects cfg (.ok ()) renv tS tE review0).status = .failed ∧
      (process_review projects cfg (.ok ()) renv tS tE review0).error = some (pyTake e 500)) := by
  constructor
  · intro r hloop
    rw [process_review_done projects cfg renv tS tE review0 project pr files r hproj hpr hch hloop]
    exact ⟨rfl, rfl, rfl⟩
  · intro e hloop
    rw [process_review_loop_error projects cfg renv tS tE review0 project pr files e hproj hpr
      hch hloop]
    exact ⟨rfl, rfl⟩

/-- Witness for C1 (amended): the timed-out session of `scriptTimeoutC` is
recorded `done`, with the (empty) captured verdict and `error` untouched. -/
theorem claim_C1_amended_session_end_witness :
    (process_review projectsC {} (.ok ()) (renvOf scriptTimeoutC) 1 2 reviewC).status = .done ∧
    (process_review projectsC {} (.ok ()) (renvOf scriptTimeoutC) 1 2 reviewC).verdict =
      (agentInitState "sys").verdict ∧
    (process_review projectsC {} (.ok ()) (renvOf scriptTimeoutC) 1 2 reviewC).error =
      reviewC.error := by
  have hloop : agentLoop {} (renvOf scriptTimeoutC).execEnv
      { project_id := projCfgC.project_id, mr_id := reviewC.mr_id,
        repo_path := projCfgC.repo_path } (renvOf scriptTimeoutC).sysPrompt
      (renvOf scriptTimeoutC).script = .ok (agentInitState "sys") := by decide
  exact (claim_C1_amended_session_end projectsC {} (renvOf scriptTimeoutC) 1 2 reviewC projCfgC
    prC ["x.py"] (by decide) rfl rfl).1 (agentInitState "sys") hloop

/-- C6 counterexample: turn 1 dispatches a `submit_review` carrying
`verdict = approve`, followed in the same turn by one carrying
`request_changes`; the review is recorded `done` with
`verdict = request_changes` — not `approve`. -/
theorem claim_C6_counterexample :
    respTwoSubmitC.message.tool_calls.map (fun c => c.name) =
      ["submit_review", "submit_review"] ∧
    respTwoSubmitC.message.tool_calls.map (fun c => (c.argSrc.getD []).get "verdict") =
      [some (.str "approve"), some (.str "request_changes")] ∧
    (process_review projectsC {} (.ok ()) (renvOf scriptTwoSubmitC) 1 2 reviewC).status = .done ∧
    (process_review projectsC {} (.ok ()) (renvOf scriptTwoSubmitC) 1 2 reviewC).verdict =
      some (.str "request_changes") ∧
    ¬ (process_review projectsC {} (.ok ()) (renvOf scriptTwoSubmitC) 1 2 reviewC).verdict =
      some (.str "approve") := by
  refine ⟨rfl, rfl, ?_, ?_, ?_⟩ <;> decide

/-- C6 (amended): a session that completes without raising and whose LAST
dispatched `submit_review` call carried arguments parsing to
`verdict = approve` is recorded by the scheduler as `status = done`,
`verdict = approve`, with the review's `error` field still unset. -/
theorem claim_C6_amended_last_submit_approve (projects : String → Option ProjectConfig)
    (cfg : Config) (renv : RunEnv) (tS tE : Nat) (review0 : Review) (project : ProjectConfig)
    (pr : PRInfo) (files : List String) (r : LoopState)
    (hproj : projects review0.project = some project)
    (hpr : renv.pr = .ok pr) (hch : renv.changed = .ok files)
    (herr : review0.error = none)
    (hloop : agentLoop cfg renv.execEnv
      { project_id := project.project_id, mr_id := review0.mr_id,
        repo_path := project.repo_path } renv.sysPrompt renv.script = .ok r)
    (hv : capturedVerdictOfTrace r.execSt.execTrace = some (.str "approve")) :
    (process_review projects cfg (.ok ()) renv tS tE review0).status = .done ∧
    (process_review projects cfg (.ok ()) renv tS tE review0).verdict = some (.str "approve") ∧
    (process_review projects cfg (.ok ()) renv tS tE review0).error = none := by
  have hinv : VerdictInv r :=
    loopGo_inv cfg renv.execEnv
      { project_id := project.project_id, mr_id := review0.mr_id,
        repo_path := project.repo_path } renv.script agentMaxTurns
      (agentInitState renv.sysPrompt) r rfl hloop
  have hrv : r.verdict = some (.str "approve") := hinv.trans hv
  rw [process_review_done projects cfg renv tS tE review0 project pr files r hproj hpr hch hloop]
  exact ⟨rfl, hrv, herr⟩

/-- Witness for C6 (amended): the single-submit approve session is
recorded `done`/`approve` with `error` unset. -/
theorem claim_C6_amended_last_submit_approve_witness :
    (process_review projectsC {} (.ok ()) (renvOf scriptSubmitStopC) 1 2 reviewC).status =
      .done ∧
    (process_review projectsC {} (.ok ()) (renvOf scriptSubmitStopC) 1 2 reviewC).verdict =
      some (.str "approve") ∧
    (process_review projectsC {} (.ok ()) (renvOf scriptSubmitStopC) 1 2 reviewC).error =
      none := by
  have hloop : agentLoop {} (renvOf scriptSubmitStopC).execEnv
      { project_id := projCfgC.project_id, mr_id := reviewC.mr_id,
        repo_path := projCfgC.repo_path } (renvOf scriptSubmitStopC).sysPrompt
      (renvOf scriptSubmitStopC).script = .ok loopResSubmitStopC := by decide
  exact claim_C6_amended_last_submit_approve projectsC {} (renvOf scriptSubmitStopC) 1 2 reviewC
    projCfgC prC ["x.py"] loopResSubmitStopC (by decide) rfl rfl rfl hloop (by decide)

end Minions
